import Mathlib

/-! # RTNeural: configuration-time behaviour of the 2-D convolution layer

Shallow embedding of `RTNeural/conv2d/conv2d_eigen.tpp` (constructors, copy,
assignment, `setWeights`, `setBias` of `Conv2D`, `setBias` of `Conv2DT`) and of
`computeReceptiveField` from `tests/conv2d_model.h`.

Conventions of the embedding.

* A C++ `int` is a Lean `Int`.  Every `int` operation of the source is
  performed by `intAdd`, `intSub`, `intMul`, `intDiv`, which return `none`
  when the source operation has no defined result (signed overflow, division
  by zero).  Division truncates toward zero, as in C++.
* A function of the source is a Lean function into `Option`.  The value `none`
  stands for "the source has undefined behaviour on this input" (overflow, a
  negative size handed to Eigen, an index past the end of a container).  The
  source has no error path of its own: it throws nothing and returns no status.
* Mutation is explicit state passing: a member function maps the object
  before the call to the object after the call.
* The scalar type `T` is arbitrary; only its zero is used.
-/

namespace RTNeural

/-! ## The C++ `int` type -/

/-- Smallest value of a 32-bit `int`. -/
def INT_MIN : Int := -2147483648

/-- Largest value of a 32-bit `int`. -/
def INT_MAX : Int := 2147483647

/-- Keeps a mathematical result when it is representable as an `int`. -/
def checkedInt (n : Int) : Option Int :=
  if INT_MIN ≤ n ∧ n ≤ INT_MAX then some n else none

/-- The C++ expression `a + b` on `int`. -/
def intAdd (a b : Int) : Option Int := checkedInt (a + b)

/-- The C++ expression `a - b` on `int`. -/
def intSub (a b : Int) : Option Int := checkedInt (a - b)

/-- The C++ expression `a * b` on `int`. -/
def intMul (a b : Int) : Option Int := checkedInt (a * b)

/-- The C++ expression `a / b` on `int`: quotient truncated toward zero. -/
def intDiv (a b : Int) : Option Int :=
  if b = 0 then none else checkedInt (Int.tdiv a b)

/-! ## Eigen containers -/

/-- An `Eigen::Matrix<T, Dynamic, Dynamic>`: its two dimensions and its
coefficients in storage order. -/
structure EigenMatrix (T : Type) where
  rows : Nat
  cols : Nat
  coeffs : List T
deriving DecidableEq, Repr

/-- The all-zero matrix with the given dimensions. -/
def EigenMatrix.zeros {T : Type} [Zero T] (rows cols : Nat) : EigenMatrix T :=
  { rows := rows, cols := cols, coeffs := List.replicate (rows * cols) 0 }

/-- The expression `Eigen::Matrix<T, Dynamic, Dynamic>::Zero(rows, cols)`.
Eigen requires both sizes to be non-negative. -/
def EigenMatrix.Zero {T : Type} [Zero T] (rows cols : Int) : Option (EigenMatrix T) :=
  if 0 ≤ rows ∧ 0 ≤ cols then some (EigenMatrix.zeros rows.toNat cols.toNat) else none

/-- The expression `Eigen::Vector<T, Dynamic>::Zero(size)`; a vector is the
list of its coefficients.  Eigen requires the size to be non-negative. -/
def EigenVector.Zero {T : Type} [Zero T] (size : Int) : Option (List T) :=
  if 0 ≤ size then some (List.replicate size.toNat 0) else none

/-! ## The Conv1D primitive -/

/-- Modelled from the spec: the Conv1D primitive (class `Conv1DStateless`, with
its constructor and its `setWeights`) is used by `Conv2D::setWeights` but is not
part of the sources at hand.  The spec describes it as parameterized by a weight
tensor `[num_filters_out][num_filters_in][kernel_size_feature]` and a stride
along the feature axis; the record holds the five constructor arguments and
that tensor. -/
structure Conv1DStateless (T : Type) where
  num_filters_in : Int
  num_features_in : Int
  num_filters_out : Int
  kernel_size : Int
  stride : Int
  kernelWeights : List (List (List T))
deriving DecidableEq, Repr

/-- Modelled from the spec: the constructor of the Conv1D primitive, called
with `(num_filters_in, num_features_in, num_filters_out, kernel_size, stride)`.
The spec fixes the shape of the weight tensor and not its initial contents; a
fresh tap holds the all-zero tensor of the configured shape. -/
def Conv1DStateless.ctor {T : Type} [Zero T]
    (in_num_filters_in in_num_features_in in_num_filters_out in_kernel_size in_stride : Int) :
    Conv1DStateless T :=
  { num_filters_in := in_num_filters_in
    num_features_in := in_num_features_in
    num_filters_out := in_num_filters_out
    kernel_size := in_kernel_size
    stride := in_stride
    kernelWeights :=
      List.replicate in_num_filters_out.toNat
        (List.replicate in_num_filters_in.toNat (List.replicate in_kernel_size.toNat 0)) }

/-- Modelled from the spec: the per-tap shape
`[num_filters_out][num_filters_in][kernel_size_feature]` of a weight tensor. -/
def Conv1DStateless.shapeOk {T : Type} (tap : Conv1DStateless T)
    (inWeights : List (List (List T))) : Bool :=
  decide ((inWeights.length : Int) = tap.num_filters_out) &&
    inWeights.all (fun perOut =>
      decide ((perOut.length : Int) = tap.num_filters_in) &&
        perOut.all (fun perIn => decide ((perIn.length : Int) = tap.kernel_size)))

/-- Modelled from the spec: `setWeights` of the Conv1D primitive "validates the
supplied nested tensor's shape against the configured dimensions and fails with
a configuration error on mismatch"; it performs no convolution.  Failure is
`none`. -/
def Conv1DStateless.setWeights {T : Type} (tap : Conv1DStateless T)
    (inWeights : List (List (List T))) : Option (Conv1DStateless T) :=
  if tap.shapeOk inWeights then some { tap with kernelWeights := inWeights } else none

/-! ## The dynamic layer `Conv2D` -/

/-- The data members of `Conv2D<T>` that the functions of `conv2d_eigen.tpp`
read or write, together with the two sizes held by the base class `Layer<T>`.
Members declared only in the header and touched by none of these functions
(the write index of the ring buffer, the padding flag) are not represented. -/
structure Conv2D (T : Type) where
  in_size : Int
  out_size : Int
  num_filters_in : Int
  num_filters_out : Int
  num_features_in : Int
  kernel_size_time : Int
  kernel_size_feature : Int
  dilation_rate : Int
  stride : Int
  num_features_out : Int
  receptive_field : Int
  conv1dLayers : List (Conv1DStateless T)
  bias : List T
  state : List (EigenMatrix T)
deriving DecidableEq, Repr

/-- The expression `(in_num_features_in - in_kernel_size_feature) / in_stride + 1`,
which occurs twice in the initializer list of the constructor. -/
def Conv2D.featuresOutExpr (in_num_features_in in_kernel_size_feature in_stride : Int) :
    Option Int := do
  let d ← intSub in_num_features_in in_kernel_size_feature
  let q ← intDiv d in_stride
  intAdd q 1

/-- The expression `1 + (in_kernel_size_time - 1) * in_dilation_rate`. -/
def Conv2D.receptiveFieldExpr (in_kernel_size_time in_dilation_rate : Int) : Option Int := do
  let k ← intSub in_kernel_size_time 1
  let kd ← intMul k in_dilation_rate
  intAdd 1 kd

/-- The loop `for(int i = 0; i < receptive_field; i++) state.push_back(Zero(..))`
of the constructor; the first argument counts the iterations still to run. -/
def Conv2D.pushZeroStates {T : Type} [Zero T] (num_filters_out num_features_out : Int) :
    Nat → List (EigenMatrix T) → Option (List (EigenMatrix T))
  | 0, state => some state
  | n + 1, state =>
    match EigenMatrix.Zero num_filters_out num_features_out with
    | none => none
    | some m => Conv2D.pushZeroStates num_filters_out num_features_out n (state ++ [m])

/-- The constructor `Conv2D<T>::Conv2D(int, int, int, int, int, int, int)`.
The base class `Layer<T>` is initialized first, then the members, then the body
runs; `conv1dLayers` and `state` start empty. -/
def Conv2D.ctor {T : Type} [Zero T]
    (in_num_filters_in in_num_filters_out in_num_features_in in_kernel_size_time
      in_kernel_size_feature in_dilation_rate in_stride : Int) : Option (Conv2D T) := do
  let in_size ← intMul in_num_features_in in_num_filters_in
  let n ← Conv2D.featuresOutExpr in_num_features_in in_kernel_size_feature in_stride
  let out_size ← intMul n in_num_filters_out
  let num_features_out ←
    Conv2D.featuresOutExpr in_num_features_in in_kernel_size_feature in_stride
  let receptive_field ← Conv2D.receptiveFieldExpr in_kernel_size_time in_dilation_rate
  let bias ← EigenVector.Zero in_num_filters_out
  let state ←
    Conv2D.pushZeroStates in_num_filters_out num_features_out receptive_field.toNat []
  pure
    { in_size := in_size
      out_size := out_size
      num_filters_in := in_num_filters_in
      num_filters_out := in_num_filters_out
      num_features_in := in_num_features_in
      kernel_size_time := in_kernel_size_time
      kernel_size_feature := in_kernel_size_feature
      dilation_rate := in_dilation_rate
      stride := in_stride
      num_features_out := num_features_out
      receptive_field := receptive_field
      conv1dLayers := []
      bias := bias
      state := state }

/-- The constructor `Conv2D<T>::Conv2D(std::initializer_list<int> sizes)`: it reads
the first seven entries of `sizes` and delegates.  Reading an entry that is not
there is undefined. -/
def Conv2D.ctorSizes {T : Type} [Zero T] (sizes : List Int) : Option (Conv2D T) := do
  let s0 ← sizes[0]?
  let s1 ← sizes[1]?
  let s2 ← sizes[2]?
  let s3 ← sizes[3]?
  let s4 ← sizes[4]?
  let s5 ← sizes[5]?
  let s6 ← sizes[6]?
  Conv2D.ctor s0 s1 s2 s3 s4 s5 s6

/-- The copy constructor `Conv2D<T>::Conv2D(const Conv2D& other)`: it delegates to
the seven-argument constructor with the shape parameters of `other`. -/
def Conv2D.ctorCopy {T : Type} [Zero T] (other : Conv2D T) : Option (Conv2D T) :=
  Conv2D.ctor other.num_filters_in other.num_filters_out other.num_features_in
    other.kernel_size_time other.kernel_size_feature other.dilation_rate other.stride

/-- The copy assignment `Conv2D<T>::operator=(const Conv2D& other)`, whose body is
`return *this = Conv2D<T>(other);`.  The right-hand side is a temporary built by
the copy constructor.  The only assignment operator the class defines is this
one, and a temporary binds to `const Conv2D&`, so the inner `=` is a call of the
same operator on the temporary; its result is returned.  The first argument
bounds the call depth: `none` at depth zero means the call has not returned
within that depth. -/
def Conv2D.operatorAssign {T : Type} [Zero T] :
    Nat → Conv2D T → Conv2D T → Option (Conv2D T)
  | 0, _, _ => none
  | depth + 1, self, other =>
    match Conv2D.ctorCopy other with
    | none => none
    | some tmp => Conv2D.operatorAssign depth self tmp

/-- The loop of `Conv2D<T>::setWeights`: each iteration appends a fresh tap
`Conv1DStateless<T, false>(..)` built from the layer's shape and loads
`inWeights[i]` into `conv1dLayers[i]`.  The first argument counts the iterations
still to run, `i` is the loop variable.  Reading `inWeights` past its end is
undefined. -/
def Conv2D.setWeightsLoop {T : Type} [Zero T] (self : Conv2D T)
    (inWeights : List (List (List (List T)))) :
    Nat → Nat → List (Conv1DStateless T) → Option (List (Conv1DStateless T))
  | 0, _, layers => some layers
  | n + 1, i, layers =>
    let pushed := layers ++ [Conv1DStateless.ctor self.num_filters_in self.num_features_in
      self.num_filters_out self.kernel_size_feature self.stride]
    match pushed[i]?, inWeights[i]? with
    | some tap, some w =>
      match tap.setWeights w with
      | some loaded => Conv2D.setWeightsLoop self inWeights n (i + 1) (pushed.set i loaded)
      | none => none
    | _, _ => none

/-- The member function `Conv2D<T>::setWeights`: `conv1dLayers.clear()` followed by
the loop over `i < kernel_size_time`. -/
def Conv2D.setWeights {T : Type} [Zero T] (self : Conv2D T)
    (inWeights : List (List (List (List T)))) : Option (Conv2D T) :=
  match Conv2D.setWeightsLoop self inWeights self.kernel_size_time.toNat 0 [] with
  | some layers => some { self with conv1dLayers := layers }
  | none => none

/-- The loop `for(int i = 0; i < num_filters_out; i++) bias(i) = inBias[i];` shared
verbatim by `Conv2D<T>::setBias` and `Conv2DT::setBias`.  The first argument
counts the iterations still to run, `i` is the loop variable.  Reading `inBias`
or writing `bias` past the end is undefined. -/
def setBiasLoop {T : Type} (inBias : List T) : Nat → Nat → List T → Option (List T)
  | 0, _, bias => some bias
  | n + 1, i, bias =>
    match inBias[i]? with
    | some x => if i < bias.length then setBiasLoop inBias n (i + 1) (bias.set i x) else none
    | none => none

/-- The member function `Conv2D<T>::setBias`. -/
def Conv2D.setBias {T : Type} (self : Conv2D T) (inBias : List T) : Option (Conv2D T) :=
  match setBiasLoop inBias self.num_filters_out.toNat 0 self.bias with
  | some bias => some { self with bias := bias }
  | none => none

/-! ## The compile-time layer `Conv2DT` -/

/-- The data members of `Conv2DT<T, num_filters_in_t, ..., stride_t>` named in
`conv2d_eigen.tpp`.  The seven shape parameters are template arguments, hence
part of the type; `bias` is a fixed-size vector with `num_filters_out_t`
coefficients. -/
structure Conv2DT (T : Type) (num_filters_in_t num_filters_out_t num_features_in_t
    kernel_size_time_t kernel_size_feature_t dilation_rate_t stride_t : Int) where
  conv1dLayers : List (Conv1DStateless T)
  bias : List T
  state : List (EigenMatrix T)
deriving DecidableEq, Repr

/-- The member function `Conv2DT<...>::setBias`; its `num_filters_out` is the
template argument `num_filters_out_t`. -/
def Conv2DT.setBias {T : Type} {num_filters_in_t num_filters_out_t num_features_in_t
    kernel_size_time_t kernel_size_feature_t dilation_rate_t stride_t : Int}
    (self : Conv2DT T num_filters_in_t num_filters_out_t num_features_in_t
      kernel_size_time_t kernel_size_feature_t dilation_rate_t stride_t)
    (inBias : List T) :
    Option (Conv2DT T num_filters_in_t num_filters_out_t num_features_in_t
      kernel_size_time_t kernel_size_feature_t dilation_rate_t stride_t) :=
  match setBiasLoop inBias num_filters_out_t.toNat 0 self.bias with
  | some bias => some { self with bias := bias }
  | none => none

/-! ## Models and `computeReceptiveField` -/

/-- A layer of a model as `computeReceptiveField` sees it: either a `Conv2D`, or a
layer of another class, of which only the name matters here. -/
inductive Layer (T : Type) where
  | conv2d (layer : Conv2D T)
  | other (name : String)
deriving DecidableEq, Repr

/-- The virtual `getName()`; the `Conv2D` class answers `"conv2d"`. -/
def Layer.getName {T : Type} : Layer T → String
  | .conv2d _ => "conv2d"
  | .other name => name

/-- The expression `dynamic_cast<RTNeural::Conv2D<TestType>*>(l)`; `none` is the
null pointer. -/
def Layer.asConv2D {T : Type} : Layer T → Option (Conv2D T)
  | .conv2d layer => some layer
  | .other _ => none

/-- The part of `RTNeural::Model<T>` read by `computeReceptiveField`: its ordered
sequence of layers. -/
structure Model (T : Type) where
  layers : List (Layer T)
deriving DecidableEq, Repr

/-- The loop `for(auto* l : model.layers)` of `computeReceptiveField`, carrying the
local variable `receptive_field`.  Dereferencing a null `conv` is undefined. -/
def computeReceptiveFieldLoop {T : Type} : List (Layer T) → Int → Option Int
  | [], receptive_field => some receptive_field
  | l :: rest, receptive_field =>
    if l.getName = "conv2d" then
      match l.asConv2D with
      | none => none
      | some conv =>
        match intSub conv.receptive_field 1 with
        | none => none
        | some d =>
          match intAdd receptive_field d with
          | none => none
          | some r => computeReceptiveFieldLoop rest r
    else computeReceptiveFieldLoop rest receptive_field

/-- The test helper `computeReceptiveField(const RTNeural::Model<TestType>& model)`. -/
def computeReceptiveField {T : Type} (model : Model T) : Option Int :=
  computeReceptiveFieldLoop model.layers 1

/-! ## Vocabulary of the statements -/

/-- A call of one of the two setters of `Conv2D`. -/
inductive Conv2D.Call (T : Type) where
  | setWeights (inWeights : List (List (List (List T))))
  | setBias (inBias : List T)

/-- Performs one setter call on a layer. -/
def Conv2D.perform {T : Type} [Zero T] (self : Conv2D T) : Conv2D.Call T → Option (Conv2D T)
  | .setWeights inWeights => self.setWeights inWeights
  | .setBias inBias => self.setBias inBias

/-- Performs a sequence of setter calls, first call first. -/
def Conv2D.performAll {T : Type} [Zero T] : Conv2D T → List (Conv2D.Call T) → Option (Conv2D T)
  | self, [] => some self
  | self, call :: calls =>
    match self.perform call with
    | none => none
    | some next => Conv2D.performAll next calls

/-- What holds of every `Conv2D` object, whatever its weights, bias and state
contain: its shape members are those some constructor call has stored, `bias`
has `num_filters_out` coefficients, and `state` has one matrix of
`num_filters_out` rows and `num_features_out` columns per iteration of the
constructor loop. -/
structure Conv2D.IsInstance {T : Type} [Zero T] (self : Conv2D T) : Prop where
  shape : ∃ fresh : Conv2D T,
    Conv2D.ctor self.num_filters_in self.num_filters_out self.num_features_in
        self.kernel_size_time self.kernel_size_feature self.dilation_rate self.stride
      = some fresh ∧
    fresh.in_size = self.in_size ∧ fresh.out_size = self.out_size ∧
    fresh.num_features_out = self.num_features_out ∧
    fresh.receptive_field = self.receptive_field
  bias_size : self.bias.length = self.num_filters_out.toNat
  state_size : self.state.length = self.receptive_field.toNat
  state_shape : ∀ m ∈ self.state,
    m.rows = self.num_filters_out.toNat ∧ m.cols = self.num_features_out.toNat ∧
      m.coeffs.length = m.rows * m.cols

/-- The sum of `receptive_field - 1` over the layers whose name is `"conv2d"`; a
layer so named that is not a `Conv2D` has no receptive field and adds nothing. -/
def convReceptiveSum {T : Type} : List (Layer T) → Int
  | [] => 0
  | l :: rest =>
    (if l.getName = "conv2d" then
      match l with
      | .conv2d layer => layer.receptive_field - 1
      | .other _ => 0
    else 0) + convReceptiveSum rest

/-- Mathematical floor of the exact quotient `a / b`. -/
def floorQuotient (a b : Int) : Int := Int.floor ((a : ℚ) / (b : ℚ))

/-- A per-tap weight tensor has the shape
`[num_filters_out][num_filters_in][kernel_size_feature]` configured in the layer. -/
def Conv2D.tapShaped {T : Type} (self : Conv2D T) (w : List (List (List T))) : Prop :=
  (w.length : Int) = self.num_filters_out ∧
    ∀ perOut ∈ w, (perOut.length : Int) = self.num_filters_in ∧
      ∀ perIn ∈ perOut, (perIn.length : Int) = self.kernel_size_feature

/-- The tap `Conv2D::setWeights` pushes in every iteration, before loading. -/
def Conv2D.freshTap {T : Type} [Zero T] (self : Conv2D T) : Conv1DStateless T :=
  Conv1DStateless.ctor self.num_filters_in self.num_features_in self.num_filters_out
    self.kernel_size_feature self.stride

/-- The fresh tap of the layer with the tensor `w` as its weights. -/
def Conv2D.loadedTap {T : Type} [Zero T] (self : Conv2D T) (w : List (List (List T))) :
    Conv1DStateless T :=
  { self.freshTap with kernelWeights := w }

/-! ## Lemmas on `int` arithmetic -/

theorem checkedInt_eq_some {n r : Int} :
    checkedInt n = some r ↔ (INT_MIN ≤ n ∧ n ≤ INT_MAX) ∧ r = n := by
  unfold checkedInt
  split <;> simp_all [eq_comm]

theorem featuresOutExpr_eq_some {a k s r : Int} :
    Conv2D.featuresOutExpr a k s = some r ↔
      (INT_MIN ≤ a - k ∧ a - k ≤ INT_MAX) ∧ s ≠ 0 ∧
      (INT_MIN ≤ Int.tdiv (a - k) s ∧ Int.tdiv (a - k) s ≤ INT_MAX) ∧
      (INT_MIN ≤ Int.tdiv (a - k) s + 1 ∧ Int.tdiv (a - k) s + 1 ≤ INT_MAX) ∧
      r = Int.tdiv (a - k) s + 1 := by
  simp only [Conv2D.featuresOutExpr, intSub, intDiv, intAdd, Option.bind_eq_bind,
    Option.bind_eq_some, checkedInt_eq_some]
  constructor
  · rintro ⟨d, ⟨hd, rfl⟩, q, hq, h⟩
    by_cases hs : s = 0
    · simp [hs] at hq
    · simp only [hs, if_false, checkedInt_eq_some] at hq
      obtain ⟨hq, rfl⟩ := hq
      exact ⟨hd, hs, hq, h.1, h.2⟩
  · rintro ⟨hd, hs, hq, h1, rfl⟩
    exact ⟨a - k, ⟨hd, rfl⟩, Int.tdiv (a - k) s, by simp [hs, checkedInt_eq_some, hq], h1, rfl⟩

theorem receptiveFieldExpr_eq_some {k d r : Int} :
    Conv2D.receptiveFieldExpr k d = some r ↔
      (INT_MIN ≤ k - 1 ∧ k - 1 ≤ INT_MAX) ∧
      (INT_MIN ≤ (k - 1) * d ∧ (k - 1) * d ≤ INT_MAX) ∧
      (INT_MIN ≤ 1 + (k - 1) * d ∧ 1 + (k - 1) * d ≤ INT_MAX) ∧
      r = 1 + (k - 1) * d := by
  simp only [Conv2D.receptiveFieldExpr, intSub, intMul, intAdd, Option.bind_eq_bind,
    Option.bind_eq_some, checkedInt_eq_some]
  constructor
  · rintro ⟨x, ⟨hx, rfl⟩, y, ⟨hy, rfl⟩, h⟩
    exact ⟨hx, hy, h.1, h.2⟩
  · rintro ⟨hx, hy, h1, rfl⟩
    exact ⟨k - 1, ⟨hx, rfl⟩, (k - 1) * d, ⟨hy, rfl⟩, h1, rfl⟩

/-! ## Lemmas on the constructors -/

theorem pushZeroStates_eq {T : Type} [Zero T] (a b : Int) (n : Nat)
    (acc : List (EigenMatrix T)) :
    Conv2D.pushZeroStates a b n acc =
      if n = 0 ∨ (0 ≤ a ∧ 0 ≤ b) then
        some (acc ++ List.replicate n (EigenMatrix.zeros a.toNat b.toNat))
      else none := by
  induction n generalizing acc with
  | zero => simp [Conv2D.pushZeroStates]
  | succ n ih =>
    by_cases h : 0 ≤ a ∧ 0 ≤ b
    · simp [Conv2D.pushZeroStates, EigenMatrix.Zero, h, ih, List.replicate_succ]
    · simp [Conv2D.pushZeroStates, EigenMatrix.Zero, h]

theorem ctor_eq_some {T : Type} [Zero T] {a b c d e f g : Int} {x : Conv2D T} :
    Conv2D.ctor a b c d e f g = some x ↔
      ∃ nfo rf : Int,
        Conv2D.featuresOutExpr c e g = some nfo ∧
        Conv2D.receptiveFieldExpr d f = some rf ∧
        (INT_MIN ≤ c * a ∧ c * a ≤ INT_MAX) ∧
        (INT_MIN ≤ nfo * b ∧ nfo * b ≤ INT_MAX) ∧
        0 ≤ b ∧ (rf ≤ 0 ∨ 0 ≤ nfo) ∧
        x = { in_size := c * a
              out_size := nfo * b
              num_filters_in := a
              num_filters_out := b
              num_features_in := c
              kernel_size_time := d
              kernel_size_feature := e
              dilation_rate := f
              stride := g
              num_features_out := nfo
              receptive_field := rf
              conv1dLayers := []
              bias := List.replicate b.toNat 0
              state := List.replicate rf.toNat (EigenMatrix.zeros b.toNat nfo.toNat) } := by
  simp only [Conv2D.ctor, intMul, Option.bind_eq_bind, Option.bind_eq_some, checkedInt_eq_some,
    pushZeroStates_eq, EigenVector.Zero, Option.pure_def, Option.some.injEq]
  constructor
  · rintro ⟨_, ⟨hca, rfl⟩, n, hn, _, ⟨hnb, rfl⟩, nfo, hnfo, rf, hrf, bias, hbias, st, hst, rfl⟩
    have hnn : n = nfo := Option.some.inj (hn.symm.trans hnfo)
    subst hnn
    by_cases hb : 0 ≤ b
    · simp only [hb, if_true, Option.some.injEq] at hbias
      subst hbias
      by_cases hc : rf ≤ 0 ∨ 0 ≤ n
      · have hc2 : rf.toNat = 0 ∨ (0 ≤ b ∧ 0 ≤ n) :=
          hc.imp (fun h => Int.toNat_eq_zero.mpr h) (fun h => ⟨hb, h⟩)
        rw [if_pos hc2] at hst
        simp only [Option.some.injEq, List.nil_append] at hst
        subst hst
        exact ⟨n, rf, hn, hrf, hca, hnb, hb, hc, rfl⟩
      · have hc2 : ¬ (rf.toNat = 0 ∨ (0 ≤ b ∧ 0 ≤ n)) := by
          intro h
          exact hc (h.imp (fun h => Int.toNat_eq_zero.mp h) (fun h => h.2))
        rw [if_neg hc2] at hst
        exact absurd hst (by simp)
    · rw [if_neg hb] at hbias
      exact absurd hbias (by simp)
  · rintro ⟨nfo, rf, hnfo, hrf, hca, hnb, hb, hc, rfl⟩
    have hc2 : rf.toNat = 0 ∨ (0 ≤ b ∧ 0 ≤ nfo) :=
      hc.imp (fun h => Int.toNat_eq_zero.mpr h) (fun h => ⟨hb, h⟩)
    refine ⟨c * a, ⟨hca, rfl⟩, nfo, hnfo, nfo * b, ⟨hnb, rfl⟩, nfo, hnfo, rf, hrf,
      List.replicate b.toNat 0, if_pos hb,
      List.replicate rf.toNat (EigenMatrix.zeros b.toNat nfo.toNat), ?_, rfl⟩
    rw [if_pos hc2, List.nil_append]

theorem ctorSizes_cons {T : Type} [Zero T] (a b c d e f g : Int) (rest : List Int) :
    Conv2D.ctorSizes (T := T) (a :: b :: c :: d :: e :: f :: g :: rest) =
      Conv2D.ctor a b c d e f g := by
  simp [Conv2D.ctorSizes]

theorem floorQuotient_eq_ediv (a b : Int) (hb : 0 < b) : floorQuotient a b = a / b := by
  unfold floorQuotient
  obtain ⟨n, rfl⟩ := Int.eq_ofNat_of_zero_le hb.le
  rw [Int.cast_natCast]
  exact Rat.floor_intCast_div_natCast a n

/-! ## Lemmas on the setters -/

theorem setWeights_eq_some {T : Type} [Zero T] {self y : Conv2D T}
    {w : List (List (List (List T)))} (h : self.setWeights w = some y) :
    ∃ layers, Conv2D.setWeightsLoop self w self.kernel_size_time.toNat 0 [] = some layers ∧
      y = { self with conv1dLayers := layers } := by
  unfold Conv2D.setWeights at h
  split at h
  · next layers hl => exact ⟨layers, hl, (Option.some.inj h).symm⟩
  · exact absurd h (by simp)

theorem setBias_eq_some {T : Type} {self y : Conv2D T} {b : List T}
    (h : self.setBias b = some y) :
    ∃ bias, setBiasLoop b self.num_filters_out.toNat 0 self.bias = some bias ∧
      y = { self with bias := bias } := by
  unfold Conv2D.setBias at h
  split at h
  · next bias hl => exact ⟨bias, hl, (Option.some.inj h).symm⟩
  · exact absurd h (by simp)

theorem perform_state {T : Type} [Zero T] {self y : Conv2D T} {call : Conv2D.Call T}
    (h : self.perform call = some y) : y.state = self.state := by
  cases call with
  | setWeights w =>
    obtain ⟨_, -, rfl⟩ := setWeights_eq_some h
    rfl
  | setBias b =>
    obtain ⟨_, -, rfl⟩ := setBias_eq_some h
    rfl

theorem performAll_state {T : Type} [Zero T] (calls : List (Conv2D.Call T)) :
    ∀ (self y : Conv2D T), self.performAll calls = some y → y.state = self.state := by
  induction calls with
  | nil =>
    intro self y h
    simp only [Conv2D.performAll, Option.some.injEq] at h
    rw [h]
  | cons call calls ih =>
    intro self y h
    unfold Conv2D.performAll at h
    split at h
    · exact absurd h (by simp)
    · next next hn => rw [ih next y h, perform_state hn]

/-! ## The claims on construction -/

/-- C1, as amended.  For a `Conv2D` built by either constructor with `stride >= 1`,
the stored `num_features_out` is the quotient
`(num_features_in - kernel_size_feature) / stride` truncated toward zero, plus 1;
when `num_features_in >= kernel_size_feature` this is the mathematical floor of
the exact quotient, plus 1. -/
theorem ctor_num_features_out_trunc {T : Type} [Zero T] (a b c d e f g : Int) (rest : List Int)
    (x : Conv2D T) (hs : 1 ≤ g)
    (h : Conv2D.ctor a b c d e f g = some x ∨
      Conv2D.ctorSizes (a :: b :: c :: d :: e :: f :: g :: rest) = some x) :
    x.num_features_out = Int.tdiv (c - e) g + 1 ∧
      (e ≤ c → x.num_features_out = floorQuotient (c - e) g + 1) := by
  rw [ctorSizes_cons, or_self] at h
  obtain ⟨nfo, rf, hnfo, -, -, -, -, -, rfl⟩ := ctor_eq_some.mp h
  have hval : nfo = Int.tdiv (c - e) g + 1 := (featuresOutExpr_eq_some.mp hnfo).2.2.2.2
  refine ⟨hval, fun hec => ?_⟩
  show nfo = _
  rw [hval, floorQuotient_eq_ediv _ _ (by omega), Int.tdiv_eq_ediv (by omega) (by omega)]

/-- C1, the two examples of the claim: `(num_features_in, kernel_size_feature,
stride) = (10, 3, 1)` gives 8 and `(50, 3, 3)` gives 16. -/
theorem ctor_num_features_out_trunc_witness :
    ∃ x y : Conv2D Int,
      (1 : Int) ≤ 1 ∧ Conv2D.ctor 1 1 10 1 3 1 1 = some x ∧ x.num_features_out = 8 ∧
      (1 : Int) ≤ 3 ∧ Conv2D.ctorSizes [1, 8, 50, 5, 3, 1, 3] = some y ∧
        y.num_features_out = 16 := by
  obtain ⟨x, hx⟩ : ∃ x : Conv2D Int, Conv2D.ctor 1 1 10 1 3 1 1 = some x := ⟨_, rfl⟩
  obtain ⟨y, hy⟩ : ∃ y : Conv2D Int, Conv2D.ctorSizes [1, 8, 50, 5, 3, 1, 3] = some y :=
    ⟨_, rfl⟩
  have h1 := (ctor_num_features_out_trunc 1 1 10 1 3 1 1 [] x (by decide) (Or.inl hx)).1
  have h2 := (ctor_num_features_out_trunc 1 8 50 5 3 1 3 [] y (by decide) (Or.inr hy)).1
  exact ⟨x, y, by decide, hx, h1.trans (by decide), by decide, hy, h2.trans (by decide)⟩

/-- C1 fails as stated: with `num_features_in = 1`, `kernel_size_feature = 3` and
`stride = 3` the constructor stores `num_features_out = 1`, while the floor of the
exact quotient `-2 / 3`, plus 1, is 0. -/
theorem num_features_out_floor_counterexample :
    ∃ x : Conv2D Int, (1 : Int) ≤ 3 ∧ Conv2D.ctor 1 1 1 1 3 1 3 = some x ∧
      x.num_features_out = 1 ∧ floorQuotient (1 - 3) 3 + 1 = 0 := by
  refine ⟨_, by decide, rfl, rfl, ?_⟩
  rw [floorQuotient_eq_ediv _ _ (by decide)]
  decide

/-- C2, as amended.  Neither constructor checks `num_features_out`.  When the
`int` arithmetic of the initializers is defined, `num_filters_out >= 0`, and the
computed `num_features_out = n` is less than 1 with `n = 0` or
`receptive_field <= 0` (so that no matrix of negative size is requested), both
constructors return an instance, and it stores `num_features_out = n`. -/
theorem ctor_no_shape_check {T : Type} [Zero T] (a b c d e f g n rf : Int) (rest : List Int)
    (hn : Conv2D.featuresOutExpr c e g = some n) (hlt : n < 1)
    (hrf : Conv2D.receptiveFieldExpr d f = some rf) (hst : n = 0 ∨ rf ≤ 0)
    (hb : 0 ≤ b) (hin : INT_MIN ≤ c * a ∧ c * a ≤ INT_MAX)
    (hout : INT_MIN ≤ n * b ∧ n * b ≤ INT_MAX) :
    ∃ x : Conv2D T, Conv2D.ctor a b c d e f g = some x ∧
      Conv2D.ctorSizes (a :: b :: c :: d :: e :: f :: g :: rest) = some x ∧
      x.num_features_out = n ∧ x.num_features_out < 1 := by
  have hc : rf ≤ 0 ∨ 0 ≤ n := hst.elim (fun h => Or.inr h.ge) Or.inl
  obtain ⟨x, hx⟩ : ∃ x : Conv2D T, Conv2D.ctor a b c d e f g = some x ∧
      x.num_features_out = n :=
    ⟨_, ctor_eq_some.mpr ⟨n, rf, hn, hrf, hin, hout, hb, hc, rfl⟩, rfl⟩
  exact ⟨x, hx.1, (ctorSizes_cons a b c d e f g rest).trans hx.1, hx.2, hx.2 ▸ hlt⟩

/-- C2, an instance of the amended statement: `num_features_in = 2`,
`kernel_size_feature = 3`, `stride = 1`. -/
theorem ctor_no_shape_check_witness :
    ∃ x : Conv2D Int, Conv2D.ctor 1 1 2 1 3 1 1 = some x ∧
      Conv2D.ctorSizes [1, 1, 2, 1, 3, 1, 1] = some x ∧
      x.num_features_out = 0 ∧ x.num_features_out < 1 :=
  ctor_no_shape_check 1 1 2 1 3 1 1 0 1 [] (by decide) (by decide) (by decide)
    (Or.inl rfl) (by decide) (by decide) (by decide)

/-- C2 fails as stated: for `(1, 1, 2, 1, 3, 1, 1)` the computed `num_features_out`
is 0, and both constructors return an ordinary instance, whose state holds one
matrix with one row and no column. -/
theorem ctor_rejects_nothing_counterexample :
    ∃ x : Conv2D Int, Conv2D.ctor 1 1 2 1 3 1 1 = some x ∧
      Conv2D.ctorSizes [1, 1, 2, 1, 3, 1, 1] = some x ∧
      x.num_features_out = 0 ∧ x.num_features_out < 1 ∧
      x.state = [{ rows := 1, cols := 0, coeffs := [] }] :=
  ⟨_, rfl, rfl, rfl, by decide, rfl⟩

/-- C3.  For a `Conv2D` built by either constructor, the stored `receptive_field`
equals `1 + (kernel_size_time - 1) * dilation_rate`. -/
theorem ctor_receptive_field {T : Type} [Zero T] (a b c d e f g : Int) (rest : List Int)
    (x : Conv2D T)
    (h : Conv2D.ctor a b c d e f g = some x ∨
      Conv2D.ctorSizes (a :: b :: c :: d :: e :: f :: g :: rest) = some x) :
    x.receptive_field = 1 + (d - 1) * f := by
  rw [ctorSizes_cons, or_self] at h
  obtain ⟨nfo, rf, -, hrf, -, -, -, -, rfl⟩ := ctor_eq_some.mp h
  exact (receptiveFieldExpr_eq_some.mp hrf).2.2.2

/-- C3, the two examples of the claim: `kernel_size_time = 5` with
`dilation_rate = 2` gives 9, and with `dilation_rate = 1` gives 5. -/
theorem ctor_receptive_field_witness :
    ∃ x y : Conv2D Int,
      Conv2D.ctor 1 1 10 5 3 2 1 = some x ∧ x.receptive_field = 9 ∧
      Conv2D.ctorSizes [1, 8, 50, 5, 3, 1, 3] = some y ∧ y.receptive_field = 5 := by
  obtain ⟨x, hx⟩ : ∃ x : Conv2D Int, Conv2D.ctor 1 1 10 5 3 2 1 = some x := ⟨_, rfl⟩
  obtain ⟨y, hy⟩ : ∃ y : Conv2D Int, Conv2D.ctorSizes [1, 8, 50, 5, 3, 1, 3] = some y :=
    ⟨_, rfl⟩
  have h1 := ctor_receptive_field 1 1 10 5 3 2 1 [] x (Or.inl hx)
  have h2 := ctor_receptive_field 1 8 50 5 3 1 3 [] y (Or.inr hy)
  exact ⟨x, y, hx, h1.trans (by decide), hy, h2.trans (by decide)⟩

/-- C4.  For a `Conv2D` built by either constructor with `kernel_size_time >= 1`
and `dilation_rate >= 1`, `state` has exactly `receptive_field` entries, each a
matrix of `num_filters_out` rows and `num_features_out` columns whose
coefficients are all zero; and any sequence of later `setWeights` and `setBias`
calls leaves `state`, hence its number of entries, as it was. -/
theorem ctor_state_ring {T : Type} [Zero T] (a b c d e f g : Int) (rest : List Int)
    (x : Conv2D T) (hk : 1 ≤ d) (hd : 1 ≤ f)
    (h : Conv2D.ctor a b c d e f g = some x ∨
      Conv2D.ctorSizes (a :: b :: c :: d :: e :: f :: g :: rest) = some x) :
    (x.state.length : Int) = x.receptive_field ∧
      (∀ m ∈ x.state,
        (m.rows : Int) = x.num_filters_out ∧ (m.cols : Int) = x.num_features_out ∧
          m.coeffs.length = m.rows * m.cols ∧ ∀ v ∈ m.coeffs, v = 0) ∧
      ∀ (calls : List (Conv2D.Call T)) (y : Conv2D T), x.performAll calls = some y →
        y.state = x.state ∧ (y.state.length : Int) = x.receptive_field := by
  rw [ctorSizes_cons, or_self] at h
  obtain ⟨nfo, rf, -, hrf, -, -, hb, hc, rfl⟩ := ctor_eq_some.mp h
  have hrfv : rf = 1 + (d - 1) * f := (receptiveFieldExpr_eq_some.mp hrf).2.2.2
  have hpos : 1 ≤ rf := by
    have : 0 ≤ (d - 1) * f := Int.mul_nonneg (by omega) (by omega)
    omega
  have hnfo : 0 ≤ nfo := hc.elim (fun h => absurd h (by omega)) id
  have hlen : ((List.replicate rf.toNat (EigenMatrix.zeros (T := T) b.toNat nfo.toNat)).length
      : Int) = rf := by
    rw [List.length_replicate, Int.toNat_of_nonneg (by omega)]
  refine ⟨hlen, ?_, ?_⟩
  · intro m hm
    obtain rfl := List.eq_of_mem_replicate hm
    refine ⟨Int.toNat_of_nonneg hb, Int.toNat_of_nonneg hnfo, ?_, ?_⟩
    · simp [EigenMatrix.zeros]
    · intro v hv
      exact List.eq_of_mem_replicate hv
  · intro calls y hy
    have hs := performAll_state calls _ y hy
    exact ⟨hs, by rw [hs]; exact hlen⟩

/-- C4 on the first layer of the test model, `(1, 8, 50, 5, 3, 1, 3)`: five zero
matrices of shape 8 x 16, still five after a `setBias` call. -/
theorem ctor_state_ring_witness :
    ∃ x y : Conv2D Int,
      (1 : Int) ≤ 5 ∧ (1 : Int) ≤ 1 ∧ Conv2D.ctor 1 8 50 5 3 1 3 = some x ∧
      (x.state.length : Int) = 5 ∧
      x.performAll [Conv2D.Call.setBias [1, 2, 3, 4, 5, 6, 7, 8]] = some y ∧
      (y.state.length : Int) = 5 := by
  obtain ⟨x, y, hx, hrf, hy⟩ : ∃ x y : Conv2D Int, Conv2D.ctor 1 8 50 5 3 1 3 = some x ∧
      x.receptive_field = 5 ∧
      x.performAll [Conv2D.Call.setBias [1, 2, 3, 4, 5, 6, 7, 8]] = some y :=
    ⟨_, _, rfl, rfl, rfl⟩
  have h := ctor_state_ring 1 8 50 5 3 1 3 [] x (by decide) (by decide) (Or.inl hx)
  exact ⟨x, y, by decide, by decide, hx, h.1.trans hrf, hy, ((h.2.2 _ y hy).2).trans hrf⟩

/-! ## The claims on `setWeights` -/

theorem shapeOk_freshTap {T : Type} [Zero T] (self : Conv2D T) (w : List (List (List T))) :
    self.freshTap.shapeOk w = true ↔ self.tapShaped w := by
  simp [Conv1DStateless.shapeOk, Conv2D.freshTap, Conv1DStateless.ctor, Conv2D.tapShaped]

theorem freshTap_setWeights {T : Type} [Zero T] (self : Conv2D T) (w : List (List (List T)))
    (h : self.tapShaped w) :
    self.freshTap.setWeights w = some (self.loadedTap w) := by
  unfold Conv1DStateless.setWeights
  rw [if_pos ((shapeOk_freshTap self w).mpr h)]
  rfl

theorem setWeightsLoop_eq {T : Type} [Zero T] (self : Conv2D T)
    (inWeights : List (List (List (List T)))) (n : Nat) :
    ∀ (i : Nat) (layers : List (Conv1DStateless T)), layers.length = i →
      i + n ≤ inWeights.length →
      (∀ w ∈ (inWeights.drop i).take n, self.tapShaped w) →
      Conv2D.setWeightsLoop self inWeights n i layers =
        some (layers ++ ((inWeights.drop i).take n).map self.loadedTap) := by
  induction n with
  | zero =>
    intro i layers _ _ _
    simp [Conv2D.setWeightsLoop]
  | succ n ih =>
    intro i layers hlen hle hshape
    subst hlen
    have hi : layers.length < inWeights.length := by omega
    have hdrop : inWeights.drop layers.length =
        inWeights[layers.length] :: inWeights.drop (layers.length + 1) :=
      List.drop_eq_getElem_cons hi
    rw [hdrop, List.take_succ_cons] at hshape
    have hw : self.tapShaped inWeights[layers.length] := hshape _ (List.mem_cons_self _ _)
    unfold Conv2D.setWeightsLoop
    have hpush : (layers ++ [Conv1DStateless.ctor self.num_filters_in self.num_features_in
        self.num_filters_out self.kernel_size_feature self.stride])[layers.length]? =
        some self.freshTap := by
      simp [Conv2D.freshTap]
    simp only [hpush, List.getElem?_eq_getElem hi, freshTap_setWeights self _ hw]
    have hset : (layers ++ [Conv1DStateless.ctor self.num_filters_in self.num_features_in
        self.num_filters_out self.kernel_size_feature self.stride]).set layers.length
          (self.loadedTap inWeights[layers.length]) =
        layers ++ [self.loadedTap inWeights[layers.length]] := by
      simp
    rw [hset, ih (layers.length + 1) _ (by simp) (by omega)
      (fun w hmem => hshape w (List.mem_cons_of_mem _ hmem)), hdrop, List.take_succ_cons]
    simp

theorem setWeights_eq_loaded {T : Type} [Zero T] (self : Conv2D T)
    (w : List (List (List (List T))))
    (hlen : self.kernel_size_time ≤ w.length)
    (hshape : ∀ wi ∈ w.take self.kernel_size_time.toNat, self.tapShaped wi) :
    ∃ y : Conv2D T, self.setWeights w = some y ∧
      y.conv1dLayers = (w.take self.kernel_size_time.toNat).map self.loadedTap ∧
      y.kernel_size_time = self.kernel_size_time ∧ y.tapShaped = self.tapShaped ∧
      y.loadedTap = self.loadedTap := by
  have hloop := setWeightsLoop_eq self w self.kernel_size_time.toNat 0 [] rfl
    (by omega) (by simpa using hshape)
  unfold Conv2D.setWeights
  rw [hloop]
  exact ⟨_, rfl, by simp, rfl, rfl, rfl⟩

/-- C5.  Let `kernel_size_time >= 0` and let `w1`, `w2` be weight tensors with at
least `kernel_size_time` time entries, each of the first `kernel_size_time` of the
configured per-tap shape.  Then `setWeights(w2)` returns, `conv1dLayers` has
exactly `kernel_size_time` entries, and entry `i` is the fresh tap of shape
`(num_filters_in, num_features_in, num_filters_out, kernel_size_feature, stride)`
loaded with `w2[i]`.  Calling `setWeights(w1)` first changes nothing:
`setWeights(w1)` followed by `setWeights(w2)` leaves the same `conv1dLayers` as
`setWeights(w2)` alone. -/
theorem setWeights_rebuilds {T : Type} [Zero T] (self : Conv2D T)
    (w1 w2 : List (List (List (List T))))
    (hk : 0 ≤ self.kernel_size_time)
    (hlen1 : self.kernel_size_time ≤ w1.length)
    (hshape1 : ∀ wi ∈ w1.take self.kernel_size_time.toNat, self.tapShaped wi)
    (hlen2 : self.kernel_size_time ≤ w2.length)
    (hshape2 : ∀ wi ∈ w2.take self.kernel_size_time.toNat, self.tapShaped wi) :
    ∃ y1 y2 y12 : Conv2D T,
      self.setWeights w1 = some y1 ∧ self.setWeights w2 = some y2 ∧
      y1.setWeights w2 = some y12 ∧
      (y2.conv1dLayers.length : Int) = self.kernel_size_time ∧
      (∀ i : Nat, (i : Int) < self.kernel_size_time →
        ∃ wi, w2[i]? = some wi ∧
          y2.conv1dLayers[i]? = some (self.loadedTap wi) ∧
          y2.conv1dLayers[i]? = self.freshTap.setWeights wi) ∧
      y12.conv1dLayers = y2.conv1dLayers := by
  obtain ⟨y1, e1, -, hk1, hs1, hl1⟩ := setWeights_eq_loaded self w1 hlen1 hshape1
  obtain ⟨y2, e2, hc2, -, -, -⟩ := setWeights_eq_loaded self w2 hlen2 hshape2
  obtain ⟨y12, e12, hc12, -, -, -⟩ := setWeights_eq_loaded y1 w2 (by rw [hk1]; exact hlen2)
    (by rw [hk1, hs1]; exact hshape2)
  refine ⟨y1, y2, y12, e1, e2, e12, ?_, ?_, ?_⟩
  · rw [hc2]
    simp only [List.length_map, List.length_take]
    omega
  · intro i hi
    have hiw : i < w2.length := by omega
    have hik : i < self.kernel_size_time.toNat := by omega
    have hmem : w2[i] ∈ w2.take self.kernel_size_time.toNat := by
      rw [List.mem_take_iff_getElem]
      exact ⟨i, by omega, rfl⟩
    have hentry : y2.conv1dLayers[i]? = some (self.loadedTap w2[i]) := by
      rw [hc2, List.getElem?_map, List.getElem?_take_of_lt hik, List.getElem?_eq_getElem hiw]
      rfl
    exact ⟨w2[i], List.getElem?_eq_getElem hiw, hentry,
      hentry.trans (freshTap_setWeights self _ (hshape2 _ hmem)).symm⟩
  · rw [hc12, hc2, hk1, hl1]

/-- C5 on the layer `(1, 2, 3, 2, 2, 1, 1)`: two taps of shape `[2][1][2]` are
built from the first two entries of a three-entry tensor, whatever was loaded
before. -/
theorem setWeights_rebuilds_witness :
    ∃ x y1 y2 y12 : Conv2D Int,
      Conv2D.ctor 1 2 3 2 2 1 1 = some x ∧
      x.setWeights [[[[0, 0]], [[0, 0]]], [[[9, 9]], [[9, 9]]]] = some y1 ∧
      x.setWeights [[[[1, 2]], [[3, 4]]], [[[5, 6]], [[7, 8]]], []] = some y2 ∧
      y1.setWeights [[[[1, 2]], [[3, 4]]], [[[5, 6]], [[7, 8]]], []] = some y12 ∧
      (y2.conv1dLayers.length : Int) = 2 ∧
      y2.conv1dLayers[1]? = some (x.loadedTap [[[5, 6]], [[7, 8]]]) ∧
      y12.conv1dLayers = y2.conv1dLayers := by
  obtain ⟨x, hx, hk, ho, hi, hf⟩ : ∃ x : Conv2D Int, Conv2D.ctor 1 2 3 2 2 1 1 = some x ∧
      x.kernel_size_time = 2 ∧ x.num_filters_out = 2 ∧ x.num_filters_in = 1 ∧
      x.kernel_size_feature = 2 := ⟨_, rfl, rfl, rfl, rfl, rfl⟩
  obtain ⟨y1, y2, y12, e1, e2, e12, hlen, hentry, hsame⟩ :=
    setWeights_rebuilds x [[[[0, 0]], [[0, 0]]], [[[9, 9]], [[9, 9]]]]
      [[[[1, 2]], [[3, 4]]], [[[5, 6]], [[7, 8]]], []]
      (by rw [hk]; decide) (by rw [hk]; decide)
      (by rw [hk]; simp [Conv2D.tapShaped, ho, hi, hf])
      (by rw [hk]; decide)
      (by rw [hk]; simp [Conv2D.tapShaped, ho, hi, hf])
  obtain ⟨wi, hwi, h1, -⟩ := hentry 1 (by rw [hk]; decide)
  obtain rfl : [[[5, 6]], [[7, 8]]] = wi := by simpa using hwi
  exact ⟨x, y1, y2, y12, hx, e1, e2, e12, hlen.trans hk, h1, hsame⟩

/-! ## The claims on `setBias` -/

theorem setBiasLoop_spec {T : Type} (inBias : List T) (n : Nat) :
    ∀ (i : Nat) (bias : List T), i + n ≤ bias.length → i + n ≤ inBias.length →
      ∃ r, setBiasLoop inBias n i bias = some r ∧ r.length = bias.length ∧
        ∀ j, r[j]? = if i ≤ j ∧ j < i + n then inBias[j]? else bias[j]? := by
  induction n with
  | zero =>
    intro i bias _ _
    refine ⟨bias, rfl, rfl, fun j => ?_⟩
    rw [if_neg (by omega)]
  | succ n ih =>
    intro i bias hb hin
    have hi : i < inBias.length := by omega
    have hib : i < bias.length := by omega
    obtain ⟨r, hr, hlen, hget⟩ := ih (i + 1) (bias.set i inBias[i])
      (by rw [List.length_set]; omega) (by omega)
    refine ⟨r, ?_, by rw [hlen, List.length_set], fun j => ?_⟩
    · unfold setBiasLoop
      simp only [List.getElem?_eq_getElem hi, if_pos hib]
      exact hr
    · rw [hget j, List.getElem?_set]
      by_cases h1 : i + 1 ≤ j ∧ j < i + 1 + n
      · rw [if_pos h1, if_pos (by omega)]
      · rw [if_neg h1]
        by_cases h2 : i = j
        · subst h2
          rw [if_pos rfl, if_pos hib, if_pos (by omega), List.getElem?_eq_getElem hi]
        · rw [if_neg h2, if_neg (by omega)]

theorem setBiasLoop_short {T : Type} (inBias : List T) (n : Nat) :
    ∀ (i : Nat) (bias : List T), i ≤ inBias.length → inBias.length < i + n →
      setBiasLoop inBias n i bias = none := by
  induction n with
  | zero =>
    intro i bias h0 h
    omega
  | succ n ih =>
    intro i bias h0 h
    unfold setBiasLoop
    cases hget : inBias[i]? with
    | none => rfl
    | some x =>
      have hi := (List.getElem?_eq_some_iff.mp hget).1
      by_cases hib : i < bias.length
      · simp only [if_pos hib]
        exact ih (i + 1) _ (by omega) (by omega)
      · simp only [if_neg hib]

theorem setBiasLoop_take {T : Type} (inBias bias : List T) (n : Nat)
    (hb : bias.length = n) (hin : n ≤ inBias.length) :
    setBiasLoop inBias n 0 bias = some (inBias.take n) := by
  obtain ⟨r, hr, hlen, hget⟩ := setBiasLoop_spec inBias n 0 bias (by omega) (by omega)
  rw [hr]
  congr 1
  apply List.ext_getElem?
  intro j
  rw [hget j, List.getElem?_take]
  by_cases hj : j < n
  · rw [if_pos (by omega), if_pos hj]
  · rw [if_neg (by omega), if_neg hj]
    exact List.getElem?_eq_none (by omega)

theorem setBiasLoop_length {T : Type} (inBias : List T) (n : Nat) :
    ∀ (i : Nat) (bias r : List T), setBiasLoop inBias n i bias = some r →
      r.length = bias.length := by
  induction n with
  | zero =>
    intro i bias r h
    simp only [setBiasLoop, Option.some.injEq] at h
    rw [h]
  | succ n ih =>
    intro i bias r h
    unfold setBiasLoop at h
    split at h
    · split at h
      · rw [ih _ _ _ h, List.length_set]
      · exact absurd h (by simp)
    · exact absurd h (by simp)

theorem ctor_isInstance {T : Type} [Zero T] {a b c d e f g : Int} {x : Conv2D T}
    (h : Conv2D.ctor a b c d e f g = some x) : x.IsInstance := by
  have h0 := h
  obtain ⟨nfo, rf, -, -, -, -, hb, hc, rfl⟩ := ctor_eq_some.mp h0
  refine ⟨⟨_, h, rfl, rfl, rfl, rfl⟩, List.length_replicate _ _, List.length_replicate _ _, ?_⟩
  intro m hm
  obtain rfl := List.eq_of_mem_replicate hm
  exact ⟨rfl, rfl, by simp [EigenMatrix.zeros]⟩

theorem perform_isInstance {T : Type} [Zero T] {self y : Conv2D T} {call : Conv2D.Call T}
    (hself : self.IsInstance) (h : self.perform call = some y) : y.IsInstance := by
  obtain ⟨hshape, hbias, hstate, hmats⟩ := hself
  cases call with
  | setWeights w =>
    obtain ⟨layers, -, rfl⟩ := setWeights_eq_some h
    exact ⟨hshape, hbias, hstate, hmats⟩
  | setBias b =>
    obtain ⟨bias, hl, rfl⟩ := setBias_eq_some h
    exact ⟨hshape, (setBiasLoop_length _ _ _ _ _ hl).trans hbias, hstate, hmats⟩

theorem setBias_short_undefined {T : Type} (self : Conv2D T) (b : List T)
    (hb : (b.length : Int) < self.num_filters_out) : self.setBias b = none := by
  unfold Conv2D.setBias
  rw [setBiasLoop_short b self.num_filters_out.toNat 0 self.bias (Nat.zero_le _) (by omega)]

/-- C6.  For a `Conv2D` object and for a `Conv2DT` object, and an input vector
whose length equals `num_filters_out`: `setBias` returns, afterwards `bias` has
length `num_filters_out` and `bias[i]` is the `i`-th input entry for every `i`,
and every other member (shape parameters, `conv1dLayers`, `state`) is as
before.  For `Conv2DT` the shape parameters are part of the type. -/
theorem setBias_copies {T : Type} [Zero T] {p1 p2 p3 p4 p5 p6 p7 : Int}
    (self : Conv2D T) (selfT : Conv2DT T p1 p2 p3 p4 p5 p6 p7) (b bT : List T)
    (hself : self.IsInstance) (hb : (b.length : Int) = self.num_filters_out)
    (hselfT : selfT.bias.length = p2.toNat) (hbT : (bT.length : Int) = p2) :
    (∃ y : Conv2D T, self.setBias b = some y ∧
      (y.bias.length : Int) = self.num_filters_out ∧
      (∀ i : Nat, (i : Int) < self.num_filters_out → y.bias[i]? = b[i]?) ∧
      y = { self with bias := b }) ∧
    (∃ yT : Conv2DT T p1 p2 p3 p4 p5 p6 p7, selfT.setBias bT = some yT ∧
      (yT.bias.length : Int) = p2 ∧
      (∀ i : Nat, (i : Int) < p2 → yT.bias[i]? = bT[i]?) ∧
      yT = { selfT with bias := bT }) := by
  obtain ⟨-, hbias, -, -⟩ := hself
  constructor
  · have hloop := setBiasLoop_take b self.bias self.num_filters_out.toNat hbias (by omega)
    rw [List.take_of_length_le (by omega)] at hloop
    refine ⟨{ self with bias := b }, ?_, hb, fun _ _ => rfl, rfl⟩
    unfold Conv2D.setBias
    rw [hloop]
  · have hloop := setBiasLoop_take bT selfT.bias p2.toNat hselfT (by omega)
    rw [List.take_of_length_le (by omega)] at hloop
    refine ⟨{ selfT with bias := bT }, ?_, hbT, fun _ _ => rfl, rfl⟩
    unfold Conv2DT.setBias
    rw [hloop]

/-- C6 on the layer `(1, 2, 3, 2, 2, 1, 1)` and on a `Conv2DT` with two output
filters: `setBias` of a two-entry vector stores exactly that vector. -/
theorem setBias_copies_witness :
    ∃ (x y : Conv2D Int) (yT : Conv2DT Int 1 2 3 2 2 1 1),
      Conv2D.ctor 1 2 3 2 2 1 1 = some x ∧ x.setBias [3, 4] = some y ∧ y.bias = [3, 4] ∧
      y.state = x.state ∧ y.conv1dLayers = x.conv1dLayers ∧
      Conv2DT.setBias (⟨[], [0, 0], []⟩ : Conv2DT Int 1 2 3 2 2 1 1) [5, 6] = some yT ∧
      yT.bias = [5, 6] := by
  obtain ⟨x, hx, hn⟩ : ∃ x : Conv2D Int, Conv2D.ctor 1 2 3 2 2 1 1 = some x ∧
      x.num_filters_out = 2 := ⟨_, rfl, rfl⟩
  obtain ⟨⟨y, hy, -, -, hyeq⟩, ⟨yT, hyT, -, -, hyTeq⟩⟩ :=
    setBias_copies x (⟨[], [0, 0], []⟩ : Conv2DT Int 1 2 3 2 2 1 1) [3, 4] [5, 6]
      (ctor_isInstance hx) (by rw [hn]; decide) (by decide) (by decide)
  exact ⟨x, y, yT, hx, hy, by rw [hyeq], by rw [hyeq], by rw [hyeq], hyT, by rw [hyTeq]⟩

/-- C7, as amended.  `setBias` makes no length check and reports no error, for
`Conv2D` and for `Conv2DT` alike: given a vector with at least `num_filters_out`
entries it returns normally, `bias` becomes the first `num_filters_out` entries
of the vector, any further entries are ignored, and every other member is as
before. -/
theorem setBias_no_length_check {T : Type} [Zero T] {p1 p2 p3 p4 p5 p6 p7 : Int}
    (self : Conv2D T) (selfT : Conv2DT T p1 p2 p3 p4 p5 p6 p7) (b bT : List T)
    (hself : self.IsInstance) (hb : self.num_filters_out ≤ (b.length : Int))
    (hselfT : selfT.bias.length = p2.toNat) (hbT : p2 ≤ (bT.length : Int)) :
    self.setBias b = some { self with bias := b.take self.num_filters_out.toNat } ∧
      selfT.setBias bT = some { selfT with bias := bT.take p2.toNat } := by
  obtain ⟨-, hbias, -, -⟩ := hself
  constructor
  · unfold Conv2D.setBias
    rw [setBiasLoop_take b self.bias self.num_filters_out.toNat hbias (by omega)]
  · unfold Conv2DT.setBias
    rw [setBiasLoop_take bT selfT.bias p2.toNat hselfT (by omega)]

/-- C7, the amended statement on the layer `(1, 1, 1, 1, 1, 1, 1)` and on a `Conv2DT`
with one output filter, each given a two-entry vector. -/
theorem setBias_no_length_check_witness :
    ∃ x : Conv2D Int, Conv2D.ctor 1 1 1 1 1 1 1 = some x ∧
      x.setBias [5, 7] = some { x with bias := [5] } ∧
      Conv2DT.setBias (⟨[], [0], []⟩ : Conv2DT Int 1 1 1 1 1 1 1) [5, 7] =
        some ⟨[], [5], []⟩ := by
  obtain ⟨x, hx, hn⟩ : ∃ x : Conv2D Int, Conv2D.ctor 1 1 1 1 1 1 1 = some x ∧
      x.num_filters_out = 1 := ⟨_, rfl, rfl⟩
  have h := setBias_no_length_check x (⟨[], [0], []⟩ : Conv2DT Int 1 1 1 1 1 1 1) [5, 7] [5, 7]
    (ctor_isInstance hx) (by rw [hn]; decide) (by decide) (by decide)
  have htake : List.take x.num_filters_out.toNat [(5 : Int), 7] = [5] := by
    rw [hn]
    rfl
  rw [htake] at h
  exact ⟨x, hx, h.1, h.2⟩

/-- C7 fails as stated: on the layer `(1, 1, 1, 1, 1, 1, 1)`, whose `num_filters_out`
is 1, `setBias` of the two-entry vector `[5, 7]` returns normally and changes the
stored bias from `[0]` to `[5]`; the same holds for `Conv2DT`. -/
theorem setBias_longer_vector_counterexample :
    ∃ x y : Conv2D Int, Conv2D.ctor 1 1 1 1 1 1 1 = some x ∧
      (([5, 7] : List Int).length : Int) ≠ x.num_filters_out ∧
      x.setBias [5, 7] = some y ∧ x.bias = [0] ∧ y.bias = [5] ∧
      Conv2DT.setBias (⟨[], [0], []⟩ : Conv2DT Int 1 1 1 1 1 1 1) [5, 7] =
        some ⟨[], [5], []⟩ :=
  ⟨_, _, rfl, by decide, rfl, rfl, rfl, rfl⟩

/-! ## The claims on copying -/

theorem ctorCopy_of_isInstance {T : Type} [Zero T] (src : Conv2D T) (hsrc : src.IsInstance) :
    Conv2D.ctorCopy src = some
      { src with
        conv1dLayers := []
        bias := List.replicate src.num_filters_out.toNat 0
        state := List.replicate src.receptive_field.toNat
          (EigenMatrix.zeros src.num_filters_out.toNat src.num_features_out.toNat) } ∧
      0 ≤ src.num_filters_out := by
  obtain ⟨⟨fresh, hfresh, h1, h2, h3, h4⟩, -, -, -⟩ := hsrc
  have h0 := hfresh
  obtain ⟨nfo, rf, -, -, -, -, hb, -, rfl⟩ := ctor_eq_some.mp h0
  refine ⟨?_, hb⟩
  unfold Conv2D.ctorCopy
  rw [hfresh]
  simp only at h1 h2 h3 h4
  subst h3 h4
  rw [h1, h2]

theorem ctorCopy_idem {T : Type} [Zero T] (src y : Conv2D T) (hsrc : src.IsInstance)
    (hy : Conv2D.ctorCopy src = some y) : Conv2D.ctorCopy y = some y := by
  have h := (ctorCopy_of_isInstance src hsrc).1
  rw [hy] at h
  have hyi : y.IsInstance := ctor_isInstance hy
  have h2 := (ctorCopy_of_isInstance y hyi).1
  rw [h2, Option.some.injEq]
  obtain rfl := Option.some.inj h
  rfl

theorem operatorAssign_none {T : Type} [Zero T] (depth : Nat) :
    ∀ self other : Conv2D T, Conv2D.operatorAssign depth self other = none := by
  induction depth with
  | zero =>
    intro self other
    rfl
  | succ depth ih =>
    intro self other
    unfold Conv2D.operatorAssign
    split
    · rfl
    · exact ih _ _

theorem operatorAssign_step {T : Type} [Zero T] (depth : Nat) (self other tmp : Conv2D T)
    (h : Conv2D.ctorCopy other = some tmp) :
    Conv2D.operatorAssign (depth + 1) self other = Conv2D.operatorAssign depth self tmp := by
  rw [Conv2D.operatorAssign, h]

/-- C8, as amended.  For every `Conv2D` object `src`, whatever weights, bias and
state contents it holds, the copy constructor returns an object with the seven
shape parameters, `num_features_out` and `receptive_field` of `src`, an all-zero
bias of length `num_filters_out`, no conv1d tap, and a state of
`max(receptive_field, 0)` all-zero matrices of shape
`num_filters_out x num_features_out`: exactly `receptive_field` of them when
`receptive_field >= 0`, none otherwise. -/
theorem ctorCopy_fresh {T : Type} [Zero T] (src : Conv2D T) (hsrc : src.IsInstance) :
    ∃ y : Conv2D T, Conv2D.ctorCopy src = some y ∧
      (y.num_filters_in = src.num_filters_in ∧ y.num_filters_out = src.num_filters_out ∧
        y.num_features_in = src.num_features_in ∧
        y.kernel_size_time = src.kernel_size_time ∧
        y.kernel_size_feature = src.kernel_size_feature ∧
        y.dilation_rate = src.dilation_rate ∧ y.stride = src.stride) ∧
      (y.num_features_out = src.num_features_out ∧
        y.receptive_field = src.receptive_field) ∧
      y.state = List.replicate src.receptive_field.toNat
          (EigenMatrix.zeros src.num_filters_out.toNat src.num_features_out.toNat) ∧
      (y.state.length : Int) = max src.receptive_field 0 ∧
      (y.bias.length : Int) = src.num_filters_out ∧ (∀ v ∈ y.bias, v = 0) ∧
      y.conv1dLayers = [] := by
  obtain ⟨hcopy, hb⟩ := ctorCopy_of_isInstance src hsrc
  refine ⟨_, hcopy, ⟨rfl, rfl, rfl, rfl, rfl, rfl, rfl⟩, ⟨rfl, rfl⟩, rfl, ?_, ?_, ?_, rfl⟩
  · simp only [List.length_replicate]
    omega
  · simp only [List.length_replicate]
    omega
  · intro v hv
    exact List.eq_of_mem_replicate hv

/-- C8, the amended statement on a layer `(1, 2, 3, 2, 2, 1, 1)` that has weights
and a bias loaded: the copy has the shape of the original, two zero matrices as
state, the bias `[0, 0]` and no tap. -/
theorem ctorCopy_fresh_witness :
    ∃ x x1 x2 y : Conv2D Int,
      Conv2D.ctor 1 2 3 2 2 1 1 = some x ∧
      x.setWeights [[[[1, 2]], [[3, 4]]], [[[5, 6]], [[7, 8]]]] = some x1 ∧
      x1.setBias [3, 4] = some x2 ∧ x2.conv1dLayers.length = 2 ∧ x2.bias = [3, 4] ∧
      Conv2D.ctorCopy x2 = some y ∧ y.receptive_field = 2 ∧ y.state.length = 2 ∧
      y.bias = [0, 0] ∧ y.conv1dLayers = [] := by
  obtain ⟨x, x1, x2, hx, hx1, hx2, hlen, hbias, hn, hrf⟩ : ∃ x x1 x2 : Conv2D Int,
      Conv2D.ctor 1 2 3 2 2 1 1 = some x ∧
      x.perform (.setWeights [[[[1, 2]], [[3, 4]]], [[[5, 6]], [[7, 8]]]]) = some x1 ∧
      x1.perform (.setBias [3, 4]) = some x2 ∧ x2.conv1dLayers.length = 2 ∧
      x2.bias = [3, 4] ∧ x2.num_filters_out = 2 ∧ x2.receptive_field = 2 :=
    ⟨_, _, _, rfl, rfl, rfl, rfl, rfl, rfl, rfl⟩
  have hinst : x2.IsInstance :=
    perform_isInstance (perform_isInstance (ctor_isInstance hx) hx1) hx2
  obtain ⟨y, hy, -, ⟨-, hyrf⟩, hstate, -, hblen, hbzero, htaps⟩ := ctorCopy_fresh x2 hinst
  have hb2 : y.bias.length = 2 := by
    rw [hn] at hblen
    exact_mod_cast hblen
  have hbias0 : y.bias = [0, 0] := by
    match hyb : y.bias, hb2, hbzero with
    | [u, v], _, hz =>
      rw [hz u (by simp), hz v (by simp)]
  exact ⟨x, x1, x2, y, hx, hx1, hx2, hlen, hbias, hy, hyrf.trans hrf,
    by rw [hstate, hrf]; rfl, hbias0, htaps⟩

/-- C8 fails as stated: the layer `(1, 1, 1, 0, 1, 2, 1)`, with `kernel_size_time = 0`,
has `receptive_field = -1`; its copy has the same `receptive_field` and an empty
state, so the number of state matrices is not `receptive_field`. -/
theorem ctorCopy_state_count_counterexample :
    ∃ src y : Conv2D Int, Conv2D.ctor 1 1 1 0 1 2 1 = some src ∧
      Conv2D.ctorCopy src = some y ∧ y.receptive_field = -1 ∧ y.state = [] ∧
      (y.state.length : Int) ≠ y.receptive_field :=
  ⟨_, _, rfl, rfl, rfl, rfl, by decide⟩

/-- C9, the code at `a = b` for the layer `(1, 1, 1, 1, 1, 1, 1)`: the copy of `b` is
built without fault and is its own copy, so every level of the call reaches the
next `operator=` call, and no call depth suffices for `operator=` to return. -/
theorem operatorAssign_never_returns :
    ∃ b : Conv2D Int, Conv2D.ctor 1 1 1 1 1 1 1 = some b ∧
      Conv2D.ctorCopy b = some b ∧
      (∀ depth : Nat, Conv2D.operatorAssign (depth + 1) b b = Conv2D.operatorAssign depth b b) ∧
      ∀ depth : Nat, Conv2D.operatorAssign depth b b = none := by
  obtain ⟨b, hb, hcopy⟩ : ∃ b : Conv2D Int, Conv2D.ctor 1 1 1 1 1 1 1 = some b ∧
      Conv2D.ctorCopy b = some b := ⟨_, rfl, rfl⟩
  exact ⟨b, hb, hcopy, fun depth => operatorAssign_step depth b b b hcopy,
    fun depth => operatorAssign_none depth b b⟩

theorem operatorAssign_recurs {T : Type} [Zero T] (self other : Conv2D T)
    (hother : other.IsInstance) :
    ∃ tmp : Conv2D T, Conv2D.ctorCopy other = some tmp ∧ Conv2D.ctorCopy tmp = some tmp ∧
      (∀ depth : Nat, Conv2D.operatorAssign (depth + 1) self other =
        Conv2D.operatorAssign depth self tmp) ∧
      (∀ depth : Nat, Conv2D.operatorAssign (depth + 1) self tmp =
        Conv2D.operatorAssign depth self tmp) := by
  obtain ⟨hcopy, -⟩ := ctorCopy_of_isInstance other hother
  exact ⟨_, hcopy, ctorCopy_idem other _ hother hcopy,
    fun depth => operatorAssign_step depth self other _ hcopy,
    fun depth => operatorAssign_step depth self _ _ (ctorCopy_idem other _ hother hcopy)⟩

/-! ## The claim on `computeReceptiveField` -/

theorem convReceptiveSum_cons_conv {T : Type} (conv : Conv2D T) (rest : List (Layer T)) :
    convReceptiveSum (Layer.conv2d conv :: rest) =
      (conv.receptive_field - 1) + convReceptiveSum rest := by
  simp [convReceptiveSum, Layer.getName]

theorem convReceptiveSum_cons_other {T : Type} (l : Layer T) (rest : List (Layer T))
    (hname : l.getName ≠ "conv2d") :
    convReceptiveSum (l :: rest) = convReceptiveSum rest := by
  simp [convReceptiveSum, hname]

theorem computeReceptiveFieldLoop_value {T : Type} (layers : List (Layer T)) :
    ∀ acc r : Int, computeReceptiveFieldLoop layers acc = some r →
      r = acc + convReceptiveSum layers := by
  induction layers with
  | nil =>
    intro acc r h
    simp only [computeReceptiveFieldLoop, Option.some.injEq] at h
    simp [convReceptiveSum, h]
  | cons l rest ih =>
    intro acc r h
    unfold computeReceptiveFieldLoop at h
    split at h
    · cases l with
      | other name => simp [Layer.asConv2D] at h
      | conv2d conv =>
        rw [convReceptiveSum_cons_conv]
        simp only [Layer.asConv2D] at h
        split at h
        · exact absurd h (by simp)
        · next d hd =>
          split at h
          · exact absurd h (by simp)
          · next r1 hr1 =>
            obtain ⟨-, rfl⟩ := checkedInt_eq_some.mp hd
            obtain ⟨-, rfl⟩ := checkedInt_eq_some.mp hr1
            rw [ih _ _ h]
            omega
    · next hname =>
      rw [convReceptiveSum_cons_other l rest hname, ih _ _ h]

theorem convReceptiveSum_nonneg {T : Type} (layers : List (Layer T))
    (hconv : ∀ l ∈ layers, l.getName = "conv2d" →
      ∃ conv, l = Layer.conv2d conv ∧ 1 ≤ conv.receptive_field) :
    0 ≤ convReceptiveSum layers := by
  induction layers with
  | nil => simp [convReceptiveSum]
  | cons l rest ih =>
    have hrest := ih (fun l hl => hconv l (List.mem_cons_of_mem _ hl))
    by_cases hname : l.getName = "conv2d"
    · obtain ⟨conv, rfl, hpos⟩ := hconv l (List.mem_cons_self _ _) hname
      rw [convReceptiveSum_cons_conv]
      omega
    · rw [convReceptiveSum_cons_other l rest hname]
      exact hrest

theorem computeReceptiveFieldLoop_defined {T : Type} (layers : List (Layer T)) :
    ∀ acc : Int, 1 ≤ acc →
      (∀ l ∈ layers, l.getName = "conv2d" →
        ∃ conv, l = Layer.conv2d conv ∧ 1 ≤ conv.receptive_field) →
      acc + convReceptiveSum layers ≤ INT_MAX →
      computeReceptiveFieldLoop layers acc = some (acc + convReceptiveSum layers) := by
  induction layers with
  | nil =>
    intro acc _ _ _
    simp [computeReceptiveFieldLoop, convReceptiveSum]
  | cons l rest ih =>
    intro acc hacc hconv hfit
    have hrestconv : ∀ l ∈ rest, l.getName = "conv2d" →
        ∃ conv, l = Layer.conv2d conv ∧ 1 ≤ conv.receptive_field :=
      fun l hl => hconv l (List.mem_cons_of_mem _ hl)
    have hrest := convReceptiveSum_nonneg rest hrestconv
    have hmin : INT_MIN = -2147483648 := rfl
    unfold computeReceptiveFieldLoop
    by_cases hname : l.getName = "conv2d"
    · obtain ⟨conv, rfl, hpos⟩ := hconv l (List.mem_cons_self _ _) hname
      rw [convReceptiveSum_cons_conv] at hfit ⊢
      have hd : intSub conv.receptive_field 1 = some (conv.receptive_field - 1) :=
        checkedInt_eq_some.mpr ⟨⟨by omega, by omega⟩, rfl⟩
      have hr : intAdd acc (conv.receptive_field - 1) = some (acc + (conv.receptive_field - 1)) :=
        checkedInt_eq_some.mpr ⟨⟨by omega, by omega⟩, rfl⟩
      simp only [Layer.asConv2D, hd, hr, if_pos hname]
      rw [ih _ (by omega) hrestconv (by omega)]
      congr 1
      omega
    · rw [convReceptiveSum_cons_other l rest hname] at hfit ⊢
      rw [if_neg hname]
      exact ih acc hacc hrestconv hfit

theorem convReceptiveSum_perm {T : Type} {l1 l2 : List (Layer T)} (h : l1.Perm l2) :
    convReceptiveSum l1 = convReceptiveSum l2 := by
  induction h with
  | nil => rfl
  | cons x _ ih =>
    unfold convReceptiveSum
    rw [ih]
  | swap x y l =>
    simp only [convReceptiveSum]
    omega
  | trans _ _ ih1 ih2 => exact ih1.trans ih2

theorem convReceptiveSum_no_conv {T : Type} (layers : List (Layer T))
    (hnone : ∀ l ∈ layers, l.getName ≠ "conv2d") : convReceptiveSum layers = 0 := by
  induction layers with
  | nil => rfl
  | cons l rest ih =>
    rw [convReceptiveSum_cons_other l rest (hnone l (List.mem_cons_self _ _))]
    exact ih (fun l hl => hnone l (List.mem_cons_of_mem _ hl))

/-- C10.  For every model, a value returned by `computeReceptiveField` is 1 plus
the sum of `receptive_field - 1` over exactly the layers named `"conv2d"`.  The
function does return that value when every layer so named is a `Conv2D` with
`receptive_field >= 1` and the total fits an `int`.  It returns 1 for a model
with no layer named `"conv2d"`, and a model with the same layers in another
order gives the same value. -/
theorem computeReceptiveField_sum {T : Type} (model : Model T) :
    (∀ r : Int, computeReceptiveField model = some r →
      r = 1 + convReceptiveSum model.layers) ∧
    ((∀ l ∈ model.layers, l.getName = "conv2d" →
        ∃ conv, l = Layer.conv2d conv ∧ 1 ≤ conv.receptive_field) →
      1 + convReceptiveSum model.layers ≤ INT_MAX →
      computeReceptiveField model = some (1 + convReceptiveSum model.layers)) ∧
    ((∀ l ∈ model.layers, l.getName ≠ "conv2d") → computeReceptiveField model = some 1) ∧
    (∀ (reordered : Model T) (r r2 : Int), reordered.layers.Perm model.layers →
      computeReceptiveField model = some r → computeReceptiveField reordered = some r2 →
      r2 = r) ∧
    (∀ reordered : Model T, reordered.layers.Perm model.layers →
      (∀ l ∈ model.layers, l.getName = "conv2d" →
        ∃ conv, l = Layer.conv2d conv ∧ 1 ≤ conv.receptive_field) →
      1 + convReceptiveSum model.layers ≤ INT_MAX →
      computeReceptiveField reordered = computeReceptiveField model) := by
  have hmin : (1 : Int) ≤ 1 := le_refl 1
  refine ⟨fun r h => computeReceptiveFieldLoop_value _ _ _ h,
    fun hconv hfit => computeReceptiveFieldLoop_defined _ 1 hmin hconv hfit, ?_, ?_, ?_⟩
  · intro hnone
    have hzero := convReceptiveSum_no_conv model.layers hnone
    have h := computeReceptiveFieldLoop_defined model.layers 1 hmin
      (fun l hl hname => absurd hname (hnone l hl)) (by rw [hzero]; decide)
    rw [hzero] at h
    exact h
  · intro reordered r r2 hperm h h2
    rw [computeReceptiveFieldLoop_value _ _ _ h, computeReceptiveFieldLoop_value _ _ _ h2,
      convReceptiveSum_perm hperm]
  · intro reordered hperm hconv hfit
    have h1 := computeReceptiveFieldLoop_defined model.layers 1 hmin hconv hfit
    have h2 := computeReceptiveFieldLoop_defined reordered.layers 1 hmin
      (fun l hl => hconv l (hperm.mem_iff.mp hl))
      (by rw [convReceptiveSum_perm hperm]; exact hfit)
    unfold computeReceptiveField
    rw [h1, h2, convReceptiveSum_perm hperm]

/-- C10 on the test model: a `Conv2D` with `kernel_size_time = 5`, `dilation_rate = 1`,
an activation, a `Conv2D` with `kernel_size_time = 5`, `dilation_rate = 5`, an
activation.  The result is `1 + 4 + 20 = 25`, in this order and with the two
convolutions exchanged. -/
theorem computeReceptiveField_sum_witness :
    ∃ c1 c2 : Conv2D Int,
      Conv2D.ctor 1 8 50 5 3 1 3 = some c1 ∧ Conv2D.ctor 8 1 16 5 7 5 1 = some c2 ∧
      computeReceptiveField
        ⟨[Layer.conv2d c1, Layer.other "relu", Layer.conv2d c2, Layer.other "relu"]⟩ = some 25 ∧
      computeReceptiveField
        ⟨[Layer.conv2d c2, Layer.other "relu", Layer.conv2d c1, Layer.other "relu"]⟩ = some 25 ∧
      computeReceptiveField (⟨[Layer.other "dense", Layer.other "tanh"]⟩ : Model Int) = some 1 := by
  obtain ⟨c1, c2, h1, h2, hr1, hr2⟩ : ∃ c1 c2 : Conv2D Int,
      Conv2D.ctor 1 8 50 5 3 1 3 = some c1 ∧ Conv2D.ctor 8 1 16 5 7 5 1 = some c2 ∧
      c1.receptive_field = 5 ∧ c2.receptive_field = 21 := ⟨_, _, rfl, rfl, rfl, rfl⟩
  have hsum : convReceptiveSum
      [Layer.conv2d c1, Layer.other "relu", Layer.conv2d c2, Layer.other "relu"] = 24 := by
    simp [convReceptiveSum, Layer.getName, hr1, hr2]
  have hconv : ∀ l ∈ [Layer.conv2d c1, Layer.other "relu", Layer.conv2d c2, Layer.other "relu"],
      l.getName = "conv2d" → ∃ conv, l = Layer.conv2d conv ∧ 1 ≤ conv.receptive_field := by
    intro l hl hname
    simp only [List.mem_cons, List.mem_singleton, List.not_mem_nil, or_false] at hl
    rcases hl with rfl | rfl | rfl | rfl
    · exact ⟨c1, rfl, by rw [hr1]; decide⟩
    · exact absurd hname (by decide)
    · exact ⟨c2, rfl, by rw [hr2]; decide⟩
    · exact absurd hname (by decide)
  have hspec := computeReceptiveField_sum
    (⟨[Layer.conv2d c1, Layer.other "relu", Layer.conv2d c2, Layer.other "relu"]⟩ : Model Int)
  have hfit : 1 + convReceptiveSum
      [Layer.conv2d c1, Layer.other "relu", Layer.conv2d c2, Layer.other "relu"] ≤ INT_MAX := by
    rw [hsum]
    decide
  have hmain := hspec.2.1 hconv hfit
  have hswap := hspec.2.2.2.2
    ⟨[Layer.conv2d c2, Layer.other "relu", Layer.conv2d c1, Layer.other "relu"]⟩
    (by
      show List.Perm [Layer.conv2d c2, Layer.other "relu", Layer.conv2d c1, Layer.other "relu"]
        [Layer.conv2d c1, Layer.other "relu", Layer.conv2d c2, Layer.other "relu"]
      exact (((List.Perm.swap (Layer.conv2d c1) (Layer.other "relu") _).cons _).trans
        (List.Perm.swap (Layer.conv2d c1) (Layer.conv2d c2) _)).trans
        ((List.Perm.swap (Layer.other "relu") (Layer.conv2d c2) _).cons _))
    hconv hfit
  simp only [hsum] at hmain
  have h25 : (1 : Int) + 24 = 25 := by decide
  rw [h25] at hmain
  refine ⟨c1, c2, h1, h2, hmain, hswap.trans hmain, ?_⟩
  exact (computeReceptiveField_sum (⟨[Layer.other "dense", Layer.other "tanh"]⟩ : Model Int)).2.2.1
    (by
      intro l hl
      simp only [List.mem_cons, List.mem_singleton, List.not_mem_nil, or_false] at hl
      rcases hl with rfl | rfl <;> decide)

end RTNeural
